import Mathlib

/-!
Shallow embedding of the RBF interpolator (rbf_interpolator.ts) over the reals,
together with theorems settling the specification claims.  Each source function
is translated as directly as the pure setting allows: JS arrays become lists,
in-place matrix updates become functional updates, thrown errors become
`Except` values, and IEEE doubles become real numbers.
-/

namespace Rbf

/-- Error kinds of the engine, named as in the specification.  The source
throws `Error` with distinguishing messages; we use a closed inductive. -/
inductive RbfError
  | emptyTrainingSet
  | dimensionMismatch
  | invalidKernel
  | singularMatrix
deriving DecidableEq, Repr

/-- The seven kernel kinds of `getRbfFunction` (the source stores the selected
closure; we store the tag and interpret it with `rbfValue`). -/
inductive KernelKind
  | thin_plate
  | multiquadric
  | inverse_multiquadric
  | gaussian
  | linear
  | squared
  | quintic
deriving DecidableEq, Repr

/-- Source `euclideanDistance`: loop `for i in [0, p1.length)` accumulating
`(p1[i] - p2[i])^2`, then `Math.sqrt`.  Out-of-range reads default to 0. -/
noncomputable def euclideanDistance (p1 p2 : List ℝ) : ℝ :=
  Real.sqrt ((List.range p1.length).foldl
    (fun s i => s + (p1.getD i 0 - p2.getD i 0) * (p1.getD i 0 - p2.getD i 0)) 0)

/-- Source `getRbfFunction` case bodies: each closure computes
`r = euclideanDistance(x1, x2)` and applies the kernel formula, the
multiquadric family and gaussian reading the captured shape parameter. -/
noncomputable def rbfValue (k : KernelKind) (eps : ℝ) (x1 x2 : List ℝ) : ℝ :=
  match k with
  | .thin_plate =>
      let r := euclideanDistance x1 x2
      if r = 0 then 0 else r * r * Real.log r
  | .multiquadric =>
      let r := euclideanDistance x1 x2
      Real.sqrt (1 + (eps * r) ^ 2)
  | .inverse_multiquadric =>
      let r := euclideanDistance x1 x2
      1 / Real.sqrt (1 + (eps * r) ^ 2)
  | .gaussian =>
      let r := euclideanDistance x1 x2
      Real.exp (-((eps * r) ^ 2))
  | .linear => euclideanDistance x1 x2
  | .squared => (euclideanDistance x1 x2) ^ 2
  | .quintic => (euclideanDistance x1 x2) ^ 5

/-- Scalar kernel as the specification writes it: a function of the distance
`r` (and shape parameter), used to compare against the source closures. -/
noncomputable def kernelPhi (k : KernelKind) (eps r : ℝ) : ℝ :=
  match k with
  | .thin_plate => if r = 0 then 0 else r * r * Real.log r
  | .multiquadric => Real.sqrt (1 + (eps * r) ^ 2)
  | .inverse_multiquadric => 1 / Real.sqrt (1 + (eps * r) ^ 2)
  | .gaussian => Real.exp (-((eps * r) ^ 2))
  | .linear => r
  | .squared => r ^ 2
  | .quintic => r ^ 5

/-- Source `getRbfFunction` switch over the (already lowercased) name; the
`inverse_multiquadric` case also carries the `inverse` label, and the default
branch throws `Unknown radial basis function`. -/
def kernelOfName (s : String) : Except RbfError KernelKind :=
  if s = "thin_plate" then .ok .thin_plate
  else if s = "multiquadric" then .ok .multiquadric
  else if s = "inverse_multiquadric" then .ok .inverse_multiquadric
  else if s = "inverse" then .ok .inverse_multiquadric
  else if s = "gaussian" then .ok .gaussian
  else if s = "linear" then .ok .linear
  else if s = "squared" then .ok .squared
  else if s = "quintic" then .ok .quintic
  else .error .invalidKernel

/-- JS `String.prototype.toLowerCase` on the ASCII kernel tags: lowercase each
character. -/
def toLowerStr (s : String) : String := ⟨s.data.map Char.toLower⟩

/-- Source `getRbfFunction`: `switch (func.toLowerCase())`. -/
def getRbfFunction (func : String) : Except RbfError KernelKind :=
  kernelOfName (toLowerStr func)

/-- Source `computeEpsilon`: early return 1.0 for fewer than 2 points, then a
double loop over the prefix of size `min(points.length, 100)` accumulating
`sumDist` and `count`, returning `sumDist / count` when `count > 0`. -/
noncomputable def computeEpsilon (points : List (List ℝ)) : ℝ :=
  if points.length < 2 then 1 else
    let sampleSize := min points.length 100
    let sc : ℝ × ℕ := (List.range sampleSize).foldl
      (fun acc i =>
        (List.range' (i + 1) (sampleSize - (i + 1))).foldl
          (fun acc2 j =>
            (acc2.1 + euclideanDistance (points.getD i []) (points.getD j []),
             acc2.2 + 1)) acc)
      (0, 0)
    if 0 < sc.2 then sc.1 / (sc.2 : ℝ) else 1

/-- Augmented matrices are total functions on indices; rows `i < n` and
columns `j ≤ n` are meaningful. -/
abbrev Mat := ℕ → ℕ → ℝ

/-- Source pivot search at `col`: scan rows `col+1 .. n-1`, replacing the
candidate whenever a strictly larger `|aug[row][col]|` is found. -/
noncomputable def pivotRow (aug : Mat) (n col : ℕ) : ℕ :=
  (List.range' (col + 1) (n - (col + 1))).foldl
    (fun maxRow row => if |aug row col| > |aug maxRow col| then row else maxRow) col

/-- Source row swap `[aug[col], aug[maxRow]] = [aug[maxRow], aug[col]]`. -/
def swapRows (M : Mat) (a b : ℕ) : Mat :=
  fun i => if i = a then M b else if i = b then M a else M i

/-- Source elimination loop at `col`: for each row `col+1 .. n-1` subtract
`factor * aug[col][j]` from `aug[row][j]` for `j = col .. n`, with
`factor = aug[row][col] / aug[col][col]`. -/
noncomputable def eliminateCol (M : Mat) (n col : ℕ) : Mat :=
  fun row j =>
    if col < row ∧ row < n ∧ col ≤ j ∧ j ≤ n then
      M row j - M row col / M col col * M col j
    else M row j

/-- One iteration of the forward-elimination loop: pivot search, row swap,
singularity check against the fixed 1e-12 threshold, column elimination. -/
noncomputable def forwardStep (n : ℕ) (M : Mat) (col : ℕ) : Except RbfError Mat :=
  let maxRow := pivotRow M n col
  let M1 := swapRows M col maxRow
  if |M1 col col| < 1e-12 then .error .singularMatrix
  else .ok (eliminateCol M1 n col)

/-- The forward-elimination loop over the given list of column indices. -/
noncomputable def feAux (n : ℕ) : Mat → List ℕ → Except RbfError Mat
  | M, [] => .ok M
  | M, c :: cs =>
    match forwardStep n M c with
    | .error e => .error e
    | .ok M1 => feAux n M1 cs

/-- Source back substitution, unrolled from the last row: `backSubAux n U k`
is the list `[x(n-k), ..., x(n-1)]`, each entry computed as
`(aug[i][n] - sum of aug[i][j]*x[j] for j in (i, n)) / aug[i][i]`. -/
noncomputable def backSubAux (n : ℕ) (U : Mat) : ℕ → List ℝ
  | 0 => []
  | k + 1 =>
    let xs := backSubAux n U k
    let i := n - (k + 1)
    ((U i n - ∑ j in Finset.range k, U i (i + 1 + j) * xs.getD j 0) / U i i) :: xs

/-- Source `solveLinearSystem`: build the augmented matrix `[A|b]`, run the
forward elimination over columns `0 .. n-1`, then back-substitute. -/
noncomputable def solveLinearSystem (A : List (List ℝ)) (b : List ℝ) :
    Except RbfError (List ℝ) :=
  let n := A.length
  let aug : Mat := fun i j => (A.getD i [] ++ [b.getD i 0]).getD j 0
  match feAux n aug (List.range n) with
  | .error e => .error e
  | .ok U => .ok (backSubAux n U n)

/-- Specification-side reading of an augmented matrix: row `i < n` asserts the
linear equation `Σ_{j<n} M i j · x j = M i n`. -/
def SatSys (n : ℕ) (M : Mat) (x : ℕ → ℝ) : Prop :=
  ∀ i < n, (∑ j in Finset.range n, M i j * x j) = M i n

/-- Entries strictly below the diagonal vanish in every column `< c` (rows
restricted to `< n`): the progress invariant of forward elimination. -/
def ZeroBelow (n c : ℕ) (M : Mat) : Prop :=
  ∀ i j, i < n → j < i → j < c → M i j = 0

/-- Source `computeWeights` matrix assembly: `A[i][j] = norm(nodes[i], nodes[j])`
followed by `A[i][i] += smooth`. -/
noncomputable def buildMatrix (nodes : List (List ℝ)) (k : KernelKind)
    (eps smooth : ℝ) : List (List ℝ) :=
  (List.range nodes.length).map (fun i =>
    (List.range nodes.length).map (fun j =>
      rbfValue k eps (nodes.getD i []) (nodes.getD j []) +
        if i = j then smooth else 0))

/-- Source `computeWeights`: assemble the matrix and solve against the stored
training values. -/
noncomputable def computeWeights (nodes : List (List ℝ)) (di : List ℝ)
    (k : KernelKind) (eps smooth : ℝ) : Except RbfError (List ℝ) :=
  solveLinearSystem (buildMatrix nodes k eps smooth) di

/-- Fitted interpolator state: the fields set by the source constructor
(`nodes`, `di`, `smooth`, `epsilon`, the resolved kernel, `weights`). -/
structure RbfInterpolator where
  nodes : List (List ℝ)
  di : List ℝ
  smooth : ℝ
  epsilon : ℝ
  kind : KernelKind
  weights : List ℝ

/-- Source constructor: points/values length check, nonemptiness check, copy
of points and values, epsilon resolution, kernel resolution, weight solve. -/
noncomputable def rbfFit (points : List (List ℝ)) (values : List ℝ)
    (func : String) (smooth : ℝ) (epsilon : Option ℝ) :
    Except RbfError RbfInterpolator :=
  if points.length ≠ values.length then .error .dimensionMismatch
  else if points.length = 0 then .error .emptyTrainingSet
  else
    let nodes := points
    let di := values
    let eps := match epsilon with
      | none => computeEpsilon points
      | some e => e
    match getRbfFunction func with
    | .error e => .error e
    | .ok kind =>
      match computeWeights nodes di kind eps smooth with
      | .error e => .error e
      | .ok w => .ok ⟨nodes, di, smooth, eps, kind, w⟩

/-- Source `interpolatePoint`: dimension check against `nodes[0].length`, then
the accumulation `result += weights[i] * norm(point, nodes[i])`. -/
noncomputable def interpolatePoint (m : RbfInterpolator) (point : List ℝ) :
    Except RbfError ℝ :=
  if point.length ≠ (m.nodes.getD 0 []).length then .error .dimensionMismatch
  else .ok ((List.range m.nodes.length).foldl
    (fun acc i =>
      acc + m.weights.getD i 0 * rbfValue m.kind m.epsilon point (m.nodes.getD i []))
    0)

/-- Source `interpolate`: map `interpolatePoint` over the query points (a
thrown error aborts the whole call, hence the monadic map). -/
noncomputable def interpolate (m : RbfInterpolator) (points : List (List ℝ)) :
    Except RbfError (List ℝ) :=
  points.mapM (interpolatePoint m)

/-- Reference semantics for the constructor's copying: the caller's arrays
live in stores (array id to contents); construction dereferences the point
array ids and the value array id at fit time, mirroring
`points.map(p => [...p])` and `[...values]`. -/
noncomputable def fitFromStore (sp : ℕ → List ℝ) (sv : ℕ → List ℝ)
    (ptRefs : List ℕ) (vRef : ℕ) (func : String) (smooth : ℝ)
    (epsilon : Option ℝ) : Except RbfError RbfInterpolator :=
  rbfFit (ptRefs.map (fun r => sp r)) (sv vRef) func smooth epsilon

/-! ### Generic accumulation lemmas -/

theorem foldl_add_eq {α : Type} (f : α → ℝ) :
    ∀ (l : List α) (a : ℝ), l.foldl (fun s i => s + f i) a = a + (l.map f).sum
  | [], a => by simp
  | x :: l, a => by
    simp only [List.foldl_cons, List.map_cons, List.sum_cons, foldl_add_eq f l (a + f x)]
    ring

theorem sum_map_range {M : Type} [AddCommMonoid M] (f : ℕ → M) :
    ∀ n, ((List.range n).map f).sum = ∑ i in Finset.range n, f i
  | 0 => by simp
  | n + 1 => by
    simp [List.range_succ, Finset.sum_range_succ, sum_map_range f n]

theorem foldl_range_sum (f : ℕ → ℝ) (n : ℕ) (a : ℝ) :
    (List.range n).foldl (fun s i => s + f i) a = a + ∑ i in Finset.range n, f i := by
  rw [foldl_add_eq, sum_map_range]

/-! ### Distance and kernel lemmas -/

theorem rbfValue_eq_kernelPhi (k : KernelKind) (eps : ℝ) (x1 x2 : List ℝ) :
    rbfValue k eps x1 x2 = kernelPhi k eps (euclideanDistance x1 x2) := by
  cases k <;> rfl

theorem euclideanDistance_self (p : List ℝ) : euclideanDistance p p = 0 := by
  simp [euclideanDistance, foldl_add_eq]

theorem euclideanDistance_single (a b : ℝ) :
    euclideanDistance [a] [b] = Real.sqrt ((a - b) * (a - b)) := by
  simp [euclideanDistance, List.range_succ]

theorem euclideanDistance_exp :
    euclideanDistance [(0 : ℝ)] [Real.exp 1] = Real.exp 1 := by
  have h : ((0 : ℝ) - Real.exp 1) * (0 - Real.exp 1) = Real.exp 1 * Real.exp 1 := by
    ring
  rw [euclideanDistance_single, h, Real.sqrt_mul_self (Real.exp_pos 1).le]

theorem euclideanDistance_sqrt3 :
    euclideanDistance [(0 : ℝ)] [Real.sqrt 3] = Real.sqrt 3 := by
  have h : ((0 : ℝ) - Real.sqrt 3) * (0 - Real.sqrt 3) = Real.sqrt 3 * Real.sqrt 3 := by
    ring
  rw [euclideanDistance_single, h, Real.sqrt_mul_self (Real.sqrt_nonneg 3)]

/-! ### Claim C1: the evaluation formula and its dimension guard -/

theorem interpolatePoint_ok (m : RbfInterpolator) (q : List ℝ)
    (h : q.length = (m.nodes.getD 0 []).length) :
    interpolatePoint m q = .ok (∑ i in Finset.range m.nodes.length,
      m.weights.getD i 0 * rbfValue m.kind m.epsilon q (m.nodes.getD i [])) := by
  simp [interpolatePoint, h, foldl_range_sum]

/-- C1: on a query of the model's dimension, `evaluate` returns
`Σᵢ wᵢ · φ(‖query − pᵢ‖)` as a pure function of the stored state and the
input; on a query of any other length it fails with `DimensionMismatch`. -/
theorem c1_evaluate_formula (m : RbfInterpolator) (q : List ℝ) :
    (q.length = (m.nodes.getD 0 []).length →
      interpolatePoint m q = .ok (∑ i in Finset.range m.nodes.length,
        m.weights.getD i 0 *
          kernelPhi m.kind m.epsilon (euclideanDistance q (m.nodes.getD i [])))) ∧
    (q.length ≠ (m.nodes.getD 0 []).length →
      interpolatePoint m q = .error .dimensionMismatch) := by
  constructor
  · intro h
    rw [interpolatePoint_ok m q h]
    simp [rbfValue_eq_kernelPhi]
  · intro h
    simp only [interpolatePoint]
    rw [if_pos h]

/-- Witness for C1 at a concrete one-point model. -/
theorem c1_evaluate_formula_witness :
    interpolatePoint ⟨[[0]], [0], 0, 1, .linear, [1]⟩ [0] =
      .ok (∑ i in Finset.range 1,
        ([(1 : ℝ)].getD i 0) * kernelPhi .linear 1
          (euclideanDistance [0] ([[(0 : ℝ)]].getD i []))) ∧
    interpolatePoint ⟨[[0]], [0], 0, 1, .linear, [1]⟩ [0, 1] =
      .error .dimensionMismatch :=
  ⟨(c1_evaluate_formula ⟨[[0]], [0], 0, 1, .linear, [1]⟩ [0]).1 (by simp),
   (c1_evaluate_formula ⟨[[0]], [0], 0, 1, .linear, [1]⟩ [0, 1]).2 (by simp)⟩

/-! ### Claim C7: the thin-plate kernel -/

/-- C7: the thin-plate kernel returns 0 when the distance is 0 (the removable
singularity is special-cased), returns `r² ln r` for positive distance `r`,
and does not depend on the shape parameter. -/
theorem c7_thin_plate_kernel (x1 x2 : List ℝ) (eps : ℝ) :
    (euclideanDistance x1 x2 = 0 → rbfValue .thin_plate eps x1 x2 = 0) ∧
    (0 < euclideanDistance x1 x2 →
      rbfValue .thin_plate eps x1 x2 =
        (euclideanDistance x1 x2) ^ 2 * Real.log (euclideanDistance x1 x2)) ∧
    (∀ e2 : ℝ, rbfValue .thin_plate eps x1 x2 = rbfValue .thin_plate e2 x1 x2) := by
  refine ⟨fun h => by simp [rbfValue, h], fun h => ?_, fun _ => rfl⟩
  simp only [rbfValue, if_neg h.ne']
  ring

/-- Witness for C7 at distance 0 and at distance `e`. -/
theorem c7_thin_plate_kernel_witness :
    rbfValue .thin_plate 1 [0] [0] = 0 ∧
    rbfValue .thin_plate 1 [(0 : ℝ)] [Real.exp 1] =
      (euclideanDistance [(0 : ℝ)] [Real.exp 1]) ^ 2 *
        Real.log (euclideanDistance [(0 : ℝ)] [Real.exp 1]) :=
  ⟨(c7_thin_plate_kernel [0] [0] 1).1 (euclideanDistance_self [0]),
   (c7_thin_plate_kernel [(0 : ℝ)] [Real.exp 1] 1).2.1
     (by rw [euclideanDistance_exp]; exact Real.exp_pos 1)⟩

/-! ### Kernel-name resolution -/

/-! ### Forward elimination: pivot search, row swaps, elimination steps -/

theorem foldl_pick_mem (f : ℕ → ℝ) :
    ∀ (l : List ℕ) (a : ℕ),
      l.foldl (fun m r => if f r > f m then r else m) a = a ∨
        l.foldl (fun m r => if f r > f m then r else m) a ∈ l
  | [], _ => Or.inl rfl
  | x :: l, a => by
    have h := foldl_pick_mem f l (if f x > f a then x else a)
    simp only [List.foldl_cons]
    rcases h with h | h
    · rw [h]
      by_cases hx : f x > f a
      · rw [if_pos hx]
        exact Or.inr (List.mem_cons_self x l)
      · rw [if_neg hx]
        exact Or.inl rfl
    · exact Or.inr (List.mem_cons_of_mem x h)

theorem pivotRow_spec (aug : Mat) (n col : ℕ) :
    pivotRow aug n col = col ∨
      pivotRow aug n col ∈ List.range' (col + 1) (n - (col + 1)) :=
  foldl_pick_mem (fun r => |aug r col|) _ col

theorem pivotRow_ge (aug : Mat) (n col : ℕ) : col ≤ pivotRow aug n col := by
  rcases pivotRow_spec aug n col with h | h
  · omega
  · have := List.mem_range'_1.mp h
    omega

theorem pivotRow_lt (aug : Mat) (n col : ℕ) (h : col < n) : pivotRow aug n col < n := by
  rcases pivotRow_spec aug n col with hm | hm
  · omega
  · have := List.mem_range'_1.mp hm
    omega

theorem swapRows_eq_comp (M : Mat) (a b : ℕ) :
    swapRows M a b = fun i => M (Equiv.swap a b i) := by
  funext i
  simp only [swapRows, Equiv.swap_apply_def]
  split_ifs <;> rfl

theorem swap_lt {a b i n : ℕ} (ha : a < n) (hb : b < n) (hi : i < n) :
    Equiv.swap a b i < n := by
  rw [Equiv.swap_apply_def]
  split_ifs <;> assumption

theorem satSys_swap_iff (M : Mat) (n a b : ℕ) (ha : a < n) (hb : b < n) (x : ℕ → ℝ) :
    SatSys n (swapRows M a b) x ↔ SatSys n M x := by
  rw [swapRows_eq_comp]
  constructor
  · intro h i hi
    have h2 := h (Equiv.swap a b i) (swap_lt ha hb hi)
    simpa [Equiv.swap_apply_self] using h2
  · intro h i hi
    exact h (Equiv.swap a b i) (swap_lt ha hb hi)

theorem zeroBelow_swap {M : Mat} {n c a b : ℕ} (h : ZeroBelow n c M)
    (ha : a < n) (hb : b < n) (hca : c ≤ a) (hcb : c ≤ b) :
    ZeroBelow n c (swapRows M a b) := by
  intro i j hi hj hjc
  rw [swapRows_eq_comp]
  have hlt : Equiv.swap a b i < n := swap_lt ha hb hi
  have hj2 : j < Equiv.swap a b i := by
    rw [Equiv.swap_apply_def]
    split_ifs <;> omega
  exact h _ j hlt hj2 hjc

theorem eliminateCol_untouched (M : Mat) (n col row j : ℕ)
    (h : ¬(col < row ∧ row < n)) :
    eliminateCol M n col row j = M row j := by
  unfold eliminateCol
  rw [if_neg (by tauto)]

theorem eliminateCol_row_eq (M : Mat) (n col row : ℕ) (hcr : col < row) (hrn : row < n)
    (hz : ∀ j, j < col → M col j = 0) (j : ℕ) (hj : j ≤ n) :
    eliminateCol M n col row j = M row j - M row col / M col col * M col j := by
  by_cases hcj : col ≤ j
  · unfold eliminateCol
    rw [if_pos ⟨hcr, hrn, hcj, hj⟩]
  · push_neg at hcj
    unfold eliminateCol
    rw [if_neg (fun hcond => absurd hcond.2.2.1 (Nat.not_le.mpr hcj)), hz j hcj]
    ring

theorem satSys_elim_iff (M : Mat) (n col : ℕ) (hcol : col < n)
    (hz : ∀ j, j < col → M col j = 0) (x : ℕ → ℝ) :
    SatSys n (eliminateCol M n col) x ↔ SatSys n M x := by
  have hpiv : ∀ j, eliminateCol M n col col j = M col j := fun j =>
    eliminateCol_untouched M n col col j (by omega)
  have hexp : ∀ row, col < row → row < n →
      (∑ j in Finset.range n, eliminateCol M n col row j * x j) =
        (∑ j in Finset.range n, M row j * x j) -
          M row col / M col col * ∑ j in Finset.range n, M col j * x j := by
    intro row hcr hrn
    rw [Finset.mul_sum, ← Finset.sum_sub_distrib]
    refine Finset.sum_congr rfl fun j hj => ?_
    rw [eliminateCol_row_eq M n col row hcr hrn hz j
      (le_of_lt (Finset.mem_range.mp hj))]
    ring
  constructor
  · intro h i hi
    by_cases hci : col < i
    · have hc := h col hcol
      simp only [hpiv] at hc
      have hio := h i hi
      rw [hexp i hci hi, hc,
        eliminateCol_row_eq M n col i hci hi hz n le_rfl] at hio
      linarith
    · have hio := h i hi
      have hrow : ∀ j, eliminateCol M n col i j = M i j := fun j =>
        eliminateCol_untouched M n col i j (by tauto)
      simpa [hrow] using hio
  · intro h i hi
    by_cases hci : col < i
    · rw [hexp i hci hi, h i hi, h col hcol,
        eliminateCol_row_eq M n col i hci hi hz n le_rfl]
    · have hrow : ∀ j, eliminateCol M n col i j = M i j := fun j =>
        eliminateCol_untouched M n col i j (by tauto)
      simpa [hrow] using h i hi

theorem zeroBelow_elim {M : Mat} {n col : ℕ} (hcol : col < n)
    (hzb : ZeroBelow n col M) (hp : M col col ≠ 0) :
    ZeroBelow n (col + 1) (eliminateCol M n col) := by
  have hz : ∀ j, j < col → M col j = 0 := fun j hj => hzb col j hcol hj hj
  intro i j hi hj hjc
  by_cases hci : col < i
  · rw [eliminateCol_row_eq M n col i hci hi hz j (by omega)]
    rcases Nat.lt_succ_iff_lt_or_eq.mp hjc with hjlt | hjeq
    · rw [hzb i j hi hj hjlt, hz j hjlt]
      ring
    · subst hjeq
      rw [div_mul_cancel₀ _ hp]
      ring
  · rw [eliminateCol_untouched M n col i j (by tauto)]
    exact hzb i j hi hj (by omega)

theorem forwardStep_ok (n col : ℕ) (M M2 : Mat) (hcol : col < n)
    (hzb : ZeroBelow n col M) (h : forwardStep n M col = .ok M2) :
    (∀ x, SatSys n M2 x ↔ SatSys n M x) ∧ ZeroBelow n (col + 1) M2 ∧
      (1e-12 : ℝ) ≤ |M2 col col| ∧ (∀ i j, i < col → M2 i j = M i j) := by
  unfold forwardStep at h
  set mr := pivotRow M n col with hmr
  have hge : col ≤ mr := pivotRow_ge M n col
  have hlt : mr < n := pivotRow_lt M n col hcol
  set M1 := swapRows M col mr with hM1
  by_cases hc : |M1 col col| < 1e-12
  · rw [if_pos hc] at h
    cases h
  · rw [if_neg hc] at h
    injection h with h
    subst h
    push_neg at hc
    have hzb1 : ZeroBelow n col M1 := zeroBelow_swap hzb hcol hlt le_rfl hge
    have hz1 : ∀ j, j < col → M1 col j = 0 := fun j hj => hzb1 col j hcol hj hj
    have hp : M1 col col ≠ 0 := by
      intro h0
      rw [h0, abs_zero] at hc
      norm_num at hc
    have hcc : eliminateCol M1 n col col col = M1 col col :=
      eliminateCol_untouched M1 n col col col (by omega)
    refine ⟨fun x => (satSys_elim_iff M1 n col hcol hz1 x).trans
      (satSys_swap_iff M n col mr hcol hlt x),
      zeroBelow_elim hcol hzb1 hp, by rw [hcc]; exact hc, ?_⟩
    intro i j hi
    have hsw : Equiv.swap col mr i = i :=
      Equiv.swap_apply_of_ne_of_ne (by omega) (by omega)
    rw [eliminateCol_untouched M1 n col i j (by omega), hM1, swapRows_eq_comp]
    show M (Equiv.swap col mr i) j = M i j
    rw [hsw]

theorem feAux_ok (n : ℕ) :
    ∀ (k col : ℕ) (M U : Mat), col + k = n → ZeroBelow n col M →
      feAux n M (List.range' col k) = .ok U →
      (∀ x, SatSys n U x ↔ SatSys n M x) ∧ ZeroBelow n n U ∧
        (∀ i, col ≤ i → i < n → (1e-12 : ℝ) ≤ |U i i|) ∧
        (∀ i j, i < col → U i j = M i j)
  | 0, col, M, U, hk, hzb, h => by
    simp only [List.range', feAux] at h
    injection h with h
    subst h
    refine ⟨fun x => Iff.rfl, ?_, fun i hci hin => absurd hin (by omega), fun _ _ _ => rfl⟩
    intro i j hi hj hjn
    exact hzb i j hi hj (by omega)
  | k + 1, col, M, U, hk, hzb, h => by
    rw [List.range'] at h
    have hcol : col < n := by omega
    cases hstep : forwardStep n M col with
    | error e =>
      rw [feAux, hstep] at h
      cases h
    | ok M1 =>
      rw [feAux, hstep] at h
      obtain ⟨hiff, hzb1, hpiv, hlow⟩ := forwardStep_ok n col M M1 hcol hzb hstep
      obtain ⟨ihiff, ihzb, ihpiv, ihlow⟩ :=
        feAux_ok n k (col + 1) M1 U (by omega) hzb1 h
      refine ⟨fun x => (ihiff x).trans (hiff x), ihzb, ?_, ?_⟩
      · intro i hci hin
        rcases Nat.eq_or_lt_of_le hci with heq | hlt
        · rw [← heq] at hin ⊢
          rw [ihlow col col (by omega)]
          exact hpiv
        · exact ihpiv i hlt hin
      · intro i j hi
        rw [ihlow i j (by omega), hlow i j hi]

/-! ### Back substitution -/

theorem backSubAux_length (n : ℕ) (U : Mat) : ∀ k, (backSubAux n U k).length = k
  | 0 => rfl
  | k + 1 => by
    simp only [backSubAux, List.length_cons, backSubAux_length n U k]

theorem backSubAux_drop (n : ℕ) (U : Mat) :
    ∀ k t, t ≤ k → (backSubAux n U k).drop (k - t) = backSubAux n U t
  | 0, t, ht => by
    have : t = 0 := by omega
    subst this
    rfl
  | k + 1, t, ht => by
    rcases Nat.eq_or_lt_of_le ht with heq | hlt
    · subst heq
      simp
    · have h1 : k + 1 - t = (k - t) + 1 := by omega
      rw [backSubAux, h1, List.drop_succ_cons]
      exact backSubAux_drop n U k t (by omega)

theorem getD_drop {α : Type} (d : α) :
    ∀ (l : List α) (m t : ℕ), (l.drop m).getD t d = l.getD (m + t) d
  | l, 0, t => by simp
  | [], m + 1, t => by simp
  | a :: l, m + 1, t => by
    rw [List.drop_succ_cons]
    rw [getD_drop d l m t]
    simp [Nat.succ_add]

theorem backSub_entry (n : ℕ) (U : Mat) (i : ℕ) (hi : i < n) :
    (backSubAux n U n).getD i 0 =
      (U i n - ∑ t in Finset.range (n - i - 1),
        U i (i + 1 + t) * (backSubAux n U n).getD (i + 1 + t) 0) / U i i := by
  have hk1 : n - i - 1 + 1 = n - i := by omega
  have hdrop : (backSubAux n U n).drop i = backSubAux n U (n - i) := by
    have := backSubAux_drop n U n (n - i) (by omega)
    rwa [show n - (n - i) = i by omega] at this
  have hgd : (backSubAux n U n).getD i 0 = (backSubAux n U (n - i)).getD 0 0 := by
    rw [← hdrop, getD_drop]
    norm_num
  rw [hgd, ← hk1, backSubAux]
  simp only [List.getD_cons_zero]
  have hidx : n - (n - i - 1 + 1) = i := by omega
  rw [hidx]
  congr 2
  refine Finset.sum_congr rfl fun t ht => ?_
  congr 1
  have hdrop2 : (backSubAux n U n).drop (i + 1) = backSubAux n U (n - i - 1) := by
    have := backSubAux_drop n U n (n - i - 1) (by omega)
    rwa [show n - (n - i - 1) = i + 1 by omega] at this
  rw [← hdrop2, getD_drop]

theorem backSub_solves (n : ℕ) (U : Mat) (hzb : ZeroBelow n n U)
    (hdiag : ∀ i, i < n → U i i ≠ 0) :
    SatSys n U (fun j => (backSubAux n U n).getD j 0) := by
  intro i hi
  have hsplit : (∑ j in Finset.range n, U i j * (backSubAux n U n).getD j 0) =
      (∑ j in Finset.range i, U i j * (backSubAux n U n).getD j 0) +
        U i i * (backSubAux n U n).getD i 0 +
        ∑ j in Finset.Ico (i + 1) n, U i j * (backSubAux n U n).getD j 0 := by
    rw [← Finset.sum_range_succ]
    rw [Finset.sum_range_add_sum_Ico _ (show i + 1 ≤ n from hi)]
  have hzero : (∑ j in Finset.range i, U i j * (backSubAux n U n).getD j 0) = 0 :=
    Finset.sum_eq_zero fun j hj => by
      rw [hzb i j hi (Finset.mem_range.mp hj) (lt_trans (Finset.mem_range.mp hj) hi)]
      ring
  have hico : (∑ j in Finset.Ico (i + 1) n, U i j * (backSubAux n U n).getD j 0) =
      ∑ t in Finset.range (n - i - 1), U i (i + 1 + t) * (backSubAux n U n).getD (i + 1 + t) 0 := by
    rw [Finset.sum_Ico_eq_sum_range]
    congr 1
  rw [hsplit, hzero, hico, backSub_entry n U i hi, mul_comm,
    div_mul_cancel₀ _ (hdiag i hi)]
  ring

/-! ### Solver correctness -/

theorem solveLinearSystem_ok (A : List (List ℝ)) (b w : List ℝ)
    (hrows : ∀ r ∈ A, r.length = A.length)
    (h : solveLinearSystem A b = .ok w) :
    ∀ i, i < A.length →
      (∑ j in Finset.range A.length, (A.getD i []).getD j 0 * w.getD j 0) =
        b.getD i 0 := by
  set n := A.length with hn
  set aug : Mat := fun i j => (A.getD i [] ++ [b.getD i 0]).getD j 0 with haug
  have h2 : (match feAux n aug (List.range n) with
      | .error e => (.error e : Except RbfError (List ℝ))
      | .ok U => .ok (backSubAux n U n)) = .ok w := h
  clear h
  cases hfe : feAux n aug (List.range n) with
  | error e =>
    rw [hfe] at h2
    cases h2
  | ok U =>
    rw [hfe] at h2
    injection h2 with h
    have h0 : ZeroBelow n 0 aug := fun i j _ _ hj => absurd hj (Nat.not_lt_zero j)
    have hfe2 : feAux n aug (List.range' 0 n) = .ok U := by
      rw [← List.range_eq_range']
      exact hfe
    obtain ⟨hiff, hzb, hpiv, _⟩ := feAux_ok n n 0 aug U (by omega) h0 hfe2
    have hdiag : ∀ i, i < n → U i i ≠ 0 := by
      intro i hi h0'
      have := hpiv i (Nat.zero_le i) hi
      rw [h0', abs_zero] at this
      norm_num at this
    have hsat : SatSys n aug (fun j => (backSubAux n U n).getD j 0) :=
      (hiff _).mp (backSub_solves n U hzb hdiag)
    intro i hi
    have hrl : (A.getD i []).length = n := by
      refine hrows _ ?_
      rw [List.getD_eq_getElem?_getD, List.getElem?_eq_getElem hi]
      exact List.getElem_mem _
    have hrow := hsat i hi
    have haugn : aug i n = b.getD i 0 := by
      rw [haug]
      show (A.getD i [] ++ [b.getD i 0]).getD n 0 = b.getD i 0
      rw [List.getD_eq_getElem?_getD, List.getElem?_append_right (by omega),
        hrl]
      simp
    have haugj : ∀ j, j < n → aug i j = (A.getD i []).getD j 0 := by
      intro j hj
      rw [haug]
      show (A.getD i [] ++ [b.getD i 0]).getD j 0 = (A.getD i []).getD j 0
      rw [List.getD_eq_getElem?_getD, List.getElem?_append_left (by omega),
        ← List.getD_eq_getElem?_getD]
    rw [← haugn, ← hrow, h]
    refine Finset.sum_congr rfl fun j hj => ?_
    rw [haugj j (Finset.mem_range.mp hj)]

/-! ### Matrix assembly and the fitted system -/

theorem getD_mem {α : Type} (l : List α) (i : ℕ) (d : α) (hi : i < l.length) :
    l.getD i d ∈ l := by
  rw [List.getD_eq_getElem?_getD, List.getElem?_eq_getElem hi]
  exact List.getElem_mem _

theorem getD_map_range {α : Type} (f : ℕ → α) (N i : ℕ) (d : α) (hi : i < N) :
    ((List.range N).map f).getD i d = f i := by
  rw [List.getD_eq_getElem?_getD, List.getElem?_map, List.getElem?_range hi]
  rfl

theorem buildMatrix_length (nodes : List (List ℝ)) (k : KernelKind) (eps s : ℝ) :
    (buildMatrix nodes k eps s).length = nodes.length := by
  simp [buildMatrix]

theorem buildMatrix_rows (nodes : List (List ℝ)) (k : KernelKind) (eps s : ℝ) :
    ∀ r ∈ buildMatrix nodes k eps s, r.length = (buildMatrix nodes k eps s).length := by
  intro r hr
  rw [buildMatrix_length]
  simp only [buildMatrix, List.mem_map] at hr
  obtain ⟨i, _, rfl⟩ := hr
  simp

theorem buildMatrix_entry (nodes : List (List ℝ)) (k : KernelKind) (eps s : ℝ)
    (i j : ℕ) (hi : i < nodes.length) (hj : j < nodes.length) :
    ((buildMatrix nodes k eps s).getD i []).getD j 0 =
      rbfValue k eps (nodes.getD i []) (nodes.getD j []) +
        if i = j then s else 0 := by
  unfold buildMatrix
  rw [getD_map_range _ _ _ _ hi, getD_map_range _ _ _ _ hj]

theorem computeWeights_ok (nodes : List (List ℝ)) (di : List ℝ) (k : KernelKind)
    (eps s : ℝ) (w : List ℝ) (h : computeWeights nodes di k eps s = .ok w) :
    ∀ i, i < nodes.length →
      (∑ j in Finset.range nodes.length,
        (rbfValue k eps (nodes.getD i []) (nodes.getD j []) +
          if i = j then s else 0) * w.getD j 0) = di.getD i 0 := by
  have hlen := buildMatrix_length nodes k eps s
  have hmain := solveLinearSystem_ok (buildMatrix nodes k eps s) di w
    (buildMatrix_rows nodes k eps s) h
  intro i hi
  have hrow := hmain i (by rw [hlen]; exact hi)
  rw [hlen] at hrow
  rw [← hrow]
  refine Finset.sum_congr rfl fun j hj => ?_
  rw [buildMatrix_entry nodes k eps s i j hi (Finset.mem_range.mp hj)]

theorem rbfFit_ok_elim (points : List (List ℝ)) (values : List ℝ) (func : String)
    (smooth : ℝ) (epsilon : Option ℝ) (m : RbfInterpolator)
    (h : rbfFit points values func smooth epsilon = .ok m) :
    m.nodes = points ∧ m.di = values ∧ m.smooth = smooth ∧
      getRbfFunction func = .ok m.kind ∧
      m.epsilon = epsilon.getD (computeEpsilon points) ∧
      computeWeights points values m.kind m.epsilon smooth = .ok m.weights := by
  unfold rbfFit at h
  by_cases h1 : points.length ≠ values.length
  · rw [if_pos h1] at h
    cases h
  · rw [if_neg h1] at h
    by_cases h2 : points.length = 0
    · rw [if_pos h2] at h
      cases h
    · rw [if_neg h2] at h
      cases epsilon with
      | none =>
        have h3 : (match getRbfFunction func with
            | .error e => (.error e : Except RbfError RbfInterpolator)
            | .ok kind =>
              match computeWeights points values kind (computeEpsilon points) smooth with
              | .error e => .error e
              | .ok w => .ok ⟨points, values, smooth, computeEpsilon points, kind, w⟩) =
            .ok m := h
        clear h
        cases hk : getRbfFunction func with
        | error e =>
          rw [hk] at h3
          cases h3
        | ok kind =>
          simp only [hk] at h3
          cases hw : computeWeights points values kind (computeEpsilon points) smooth with
          | error e =>
            simp only [hw] at h3
            cases h3
          | ok w =>
            simp only [hw] at h3
            injection h3 with h3
            subst h3
            exact ⟨rfl, rfl, rfl, rfl, rfl, hw⟩
      | some e0 =>
        have h3 : (match getRbfFunction func with
            | .error e => (.error e : Except RbfError RbfInterpolator)
            | .ok kind =>
              match computeWeights points values kind e0 smooth with
              | .error e => .error e
              | .ok w => .ok ⟨points, values, smooth, e0, kind, w⟩) =
            .ok m := h
        clear h
        cases hk : getRbfFunction func with
        | error e =>
          rw [hk] at h3
          cases h3
        | ok kind =>
          simp only [hk] at h3
          cases hw : computeWeights points values kind e0 smooth with
          | error e =>
            simp only [hw] at h3
            cases h3
          | ok w =>
            simp only [hw] at h3
            injection h3 with h3
            subst h3
            exact ⟨rfl, rfl, rfl, rfl, rfl, hw⟩

/-! ### Claim C2: exact interpolation at the training points -/

/-- C2: for a training set of pairwise-distinct points of one common
dimension, fitted with smoothing 0, evaluating the fitted model at training
point `i` returns `values[i]` to within 1e-8 (over the reals it is exact). -/
theorem c2_exact_interpolation (points : List (List ℝ)) (values : List ℝ)
    (func : String) (epsilon : Option ℝ) (m : RbfInterpolator)
    (hfit : rbfFit points values func 0 epsilon = .ok m)
    (_hdistinct : points.Pairwise (· ≠ ·))
    (hdim : ∀ p ∈ points, p.length = (points.getD 0 []).length) :
    ∀ i, i < points.length → ∃ v,
      interpolatePoint m (points.getD i []) = .ok v ∧
        |v - values.getD i 0| ≤ 1e-8 := by
  obtain ⟨hnodes, hdi, hsm, hk, heps, hw⟩ := rbfFit_ok_elim _ _ _ _ _ _ hfit
  intro i hi
  have hmem : points.getD i [] ∈ points := getD_mem points i [] hi
  have hlen : (points.getD i []).length = (m.nodes.getD 0 []).length := by
    rw [hnodes]
    exact hdim _ hmem
  have hval := interpolatePoint_ok m (points.getD i []) hlen
  have hrow := computeWeights_ok points values m.kind m.epsilon 0 m.weights hw i hi
  have hS : (∑ j in Finset.range m.nodes.length,
      m.weights.getD j 0 *
        rbfValue m.kind m.epsilon (points.getD i []) (m.nodes.getD j [])) =
      values.getD i 0 := by
    rw [hnodes, ← hrow]
    refine Finset.sum_congr rfl fun j hj => ?_
    simp [mul_comm]
  refine ⟨_, hval, ?_⟩
  rw [hS]
  norm_num

/-! ### Concrete evaluation of the solver on 2-by-2 systems -/

theorem solveLinearSystem_eq (A : List (List ℝ)) (b : List ℝ) :
    solveLinearSystem A b =
      match feAux A.length
          (fun i j => (A.getD i [] ++ [b.getD i 0]).getD j 0)
          (List.range A.length) with
      | .error e => .error e
      | .ok U => .ok (backSubAux A.length U A.length) := rfl

theorem forwardStep_two_one (M : Mat) (h : ¬ |M 1 1| < 1e-12) :
    forwardStep 2 M 1 = .ok (eliminateCol (swapRows M 1 1) 2 1) := by
  unfold forwardStep
  rw [show pivotRow M 2 1 = 1 from rfl]
  show (if |swapRows M 1 1 1 1| < 1e-12 then (.error .singularMatrix : Except RbfError Mat)
    else .ok (eliminateCol (swapRows M 1 1) 2 1)) = .ok (eliminateCol (swapRows M 1 1) 2 1)
  rw [if_neg (by rw [show swapRows M 1 1 1 1 = M 1 1 from rfl]; exact h)]

theorem forwardStep_two_zero_noswap (M : Mat) (hpiv : ¬ |M 1 0| > |M 0 0|)
    (h : ¬ |M 0 0| < 1e-12) :
    forwardStep 2 M 0 = .ok (eliminateCol (swapRows M 0 0) 2 0) := by
  unfold forwardStep
  rw [show pivotRow M 2 0 = (if |M 1 0| > |M 0 0| then 1 else 0) from rfl, if_neg hpiv]
  show (if |swapRows M 0 0 0 0| < 1e-12 then (.error .singularMatrix : Except RbfError Mat)
    else .ok (eliminateCol (swapRows M 0 0) 2 0)) = .ok (eliminateCol (swapRows M 0 0) 2 0)
  rw [if_neg (by rw [show swapRows M 0 0 0 0 = M 0 0 from rfl]; exact h)]

theorem forwardStep_two_zero_swap (M : Mat) (hpiv : |M 1 0| > |M 0 0|)
    (h : ¬ |M 1 0| < 1e-12) :
    forwardStep 2 M 0 = .ok (eliminateCol (swapRows M 0 1) 2 0) := by
  unfold forwardStep
  rw [show pivotRow M 2 0 = (if |M 1 0| > |M 0 0| then 1 else 0) from rfl, if_pos hpiv]
  show (if |swapRows M 0 1 0 0| < 1e-12 then (.error .singularMatrix : Except RbfError Mat)
    else .ok (eliminateCol (swapRows M 0 1) 2 0)) = .ok (eliminateCol (swapRows M 0 1) 2 0)
  rw [if_neg (by rw [show swapRows M 0 1 0 0 = M 1 0 from rfl]; exact h)]

theorem forwardStep_two_zero_sing (M : Mat) (hpiv : ¬ |M 1 0| > |M 0 0|)
    (h : |M 0 0| < 1e-12) :
    forwardStep 2 M 0 = .error .singularMatrix := by
  unfold forwardStep
  rw [show pivotRow M 2 0 = (if |M 1 0| > |M 0 0| then 1 else 0) from rfl, if_neg hpiv]
  show (if |swapRows M 0 0 0 0| < 1e-12 then (.error .singularMatrix : Except RbfError Mat)
    else .ok (eliminateCol (swapRows M 0 0) 2 0)) = .error .singularMatrix
  rw [if_pos (by rw [show swapRows M 0 0 0 0 = M 0 0 from rfl]; exact h)]

theorem feAux_two (M U1 U2 : Mat) (h0 : forwardStep 2 M 0 = .ok U1)
    (h1 : forwardStep 2 U1 1 = .ok U2) :
    feAux 2 M (List.range 2) = .ok U2 := by
  rw [show List.range 2 = [0, 1] from rfl]
  simp only [feAux, h0, h1]

theorem feAux_two_err (M : Mat) (h0 : forwardStep 2 M 0 = .error .singularMatrix) :
    feAux 2 M (List.range 2) = .error .singularMatrix := by
  rw [show List.range 2 = [0, 1] from rfl]
  simp only [feAux, h0]

theorem backSubAux_two (U : Mat) :
    backSubAux 2 U 2 =
      [(U 0 2 - U 0 1 * (U 1 2 / U 1 1)) / U 0 0, U 1 2 / U 1 1] := by
  simp only [backSubAux]
  norm_num [Finset.sum_range_succ]

theorem solveLinearSystem_two_noswap (a00 a01 a10 a11 b0 b1 : ℝ)
    (hpiv : ¬ |a10| > |a00|) (h0 : ¬ |a00| < 1e-12)
    (h1 : ¬ |a11 - a10 / a00 * a01| < 1e-12) :
    solveLinearSystem [[a00, a01], [a10, a11]] [b0, b1] =
      .ok [(b0 - a01 * ((b1 - a10 / a00 * b0) / (a11 - a10 / a00 * a01))) / a00,
           (b1 - a10 / a00 * b0) / (a11 - a10 / a00 * a01)] := by
  rw [solveLinearSystem_eq]
  rw [show ([[a00, a01], [a10, a11]] : List (List ℝ)).length = 2 from rfl]
  set aug : Mat := fun i j =>
    (([[a00, a01], [a10, a11]] : List (List ℝ)).getD i [] ++
      [([b0, b1] : List ℝ).getD i 0]).getD j 0 with haug
  have hM1 := forwardStep_two_zero_noswap aug
    (by rw [show aug 1 0 = a10 from rfl, show aug 0 0 = a00 from rfl]; exact hpiv)
    (by rw [show aug 0 0 = a00 from rfl]; exact h0)
  set U1 := eliminateCol (swapRows aug 0 0) 2 0 with hU1
  have hstep1 := forwardStep_two_one U1
    (by rw [show U1 1 1 = a11 - a10 / a00 * a01 from rfl]; exact h1)
  have hfe := feAux_two aug U1 (eliminateCol (swapRows U1 1 1) 2 1) hM1 hstep1
  simp only [hfe, backSubAux_two]
  rw [show eliminateCol (swapRows U1 1 1) 2 1 0 0 = a00 from rfl,
    show eliminateCol (swapRows U1 1 1) 2 1 0 1 = a01 from rfl,
    show eliminateCol (swapRows U1 1 1) 2 1 0 2 = b0 from rfl,
    show eliminateCol (swapRows U1 1 1) 2 1 1 1 = a11 - a10 / a00 * a01 from rfl,
    show eliminateCol (swapRows U1 1 1) 2 1 1 2 = b1 - a10 / a00 * b0 from rfl]

theorem solveLinearSystem_two_swap (a00 a01 a10 a11 b0 b1 : ℝ)
    (hpiv : |a10| > |a00|) (h0 : ¬ |a10| < 1e-12)
    (h1 : ¬ |a01 - a00 / a10 * a11| < 1e-12) :
    solveLinearSystem [[a00, a01], [a10, a11]] [b0, b1] =
      .ok [(b1 - a11 * ((b0 - a00 / a10 * b1) / (a01 - a00 / a10 * a11))) / a10,
           (b0 - a00 / a10 * b1) / (a01 - a00 / a10 * a11)] := by
  rw [solveLinearSystem_eq]
  rw [show ([[a00, a01], [a10, a11]] : List (List ℝ)).length = 2 from rfl]
  set aug : Mat := fun i j =>
    (([[a00, a01], [a10, a11]] : List (List ℝ)).getD i [] ++
      [([b0, b1] : List ℝ).getD i 0]).getD j 0 with haug
  have hM1 := forwardStep_two_zero_swap aug
    (by rw [show aug 1 0 = a10 from rfl, show aug 0 0 = a00 from rfl]; exact hpiv)
    (by rw [show aug 1 0 = a10 from rfl]; exact h0)
  set U1 := eliminateCol (swapRows aug 0 1) 2 0 with hU1
  have hstep1 := forwardStep_two_one U1
    (by rw [show U1 1 1 = a01 - a00 / a10 * a11 from rfl]; exact h1)
  have hfe := feAux_two aug U1 (eliminateCol (swapRows U1 1 1) 2 1) hM1 hstep1
  simp only [hfe, backSubAux_two]
  rw [show eliminateCol (swapRows U1 1 1) 2 1 0 0 = a10 from rfl,
    show eliminateCol (swapRows U1 1 1) 2 1 0 1 = a11 from rfl,
    show eliminateCol (swapRows U1 1 1) 2 1 0 2 = b1 from rfl,
    show eliminateCol (swapRows U1 1 1) 2 1 1 1 = a01 - a00 / a10 * a11 from rfl,
    show eliminateCol (swapRows U1 1 1) 2 1 1 2 = b0 - a00 / a10 * b1 from rfl]

theorem solveLinearSystem_two_sing (a00 a01 a10 a11 b0 b1 : ℝ)
    (hpiv : ¬ |a10| > |a00|) (h0 : |a00| < 1e-12) :
    solveLinearSystem [[a00, a01], [a10, a11]] [b0, b1] = .error .singularMatrix := by
  rw [solveLinearSystem_eq]
  rw [show ([[a00, a01], [a10, a11]] : List (List ℝ)).length = 2 from rfl]
  set aug : Mat := fun i j =>
    (([[a00, a01], [a10, a11]] : List (List ℝ)).getD i [] ++
      [([b0, b1] : List ℝ).getD i 0]).getD j 0 with haug
  have hstep := forwardStep_two_zero_sing aug
    (by rw [show aug 1 0 = a10 from rfl, show aug 0 0 = a00 from rfl]; exact hpiv)
    (by rw [show aug 0 0 = a00 from rfl]; exact h0)
  simp only [feAux_two_err aug hstep]

/-! ### Concrete distances, kernel values and fits -/

theorem euclideanDistance_exp_rev :
    euclideanDistance [Real.exp 1] [(0 : ℝ)] = Real.exp 1 := by
  have h : (Real.exp 1 - 0) * (Real.exp 1 - 0) = Real.exp 1 * Real.exp 1 := by
    ring
  rw [euclideanDistance_single, h, Real.sqrt_mul_self (Real.exp_pos 1).le]

theorem euclideanDistance_sqrt3_rev :
    euclideanDistance [Real.sqrt 3] [(0 : ℝ)] = Real.sqrt 3 := by
  have h : (Real.sqrt 3 - 0) * (Real.sqrt 3 - 0) = Real.sqrt 3 * Real.sqrt 3 := by
    ring
  rw [euclideanDistance_single, h, Real.sqrt_mul_self (Real.sqrt_nonneg 3)]

theorem euclideanDistance_zero_one : euclideanDistance [(0 : ℝ)] [1] = 1 := by
  rw [euclideanDistance_single]
  norm_num [Real.sqrt_one]

theorem euclideanDistance_one_zero : euclideanDistance [(1 : ℝ)] [0] = 1 := by
  rw [euclideanDistance_single]
  norm_num [Real.sqrt_one]

theorem euclideanDistance_mm1 : euclideanDistance [(0 : ℝ), 0] [1] = 1 := by
  simp [euclideanDistance, List.range_succ]

theorem euclideanDistance_mm2 : euclideanDistance [(1 : ℝ)] [0, 0] = 1 := by
  simp [euclideanDistance, List.range_succ]

theorem rbf_thin_plate_self (eps : ℝ) (p : List ℝ) :
    rbfValue .thin_plate eps p p = 0 := by
  simp [rbfValue, euclideanDistance_self]

theorem rbf_thin_plate_dist_one (eps : ℝ) (x1 x2 : List ℝ)
    (h : euclideanDistance x1 x2 = 1) : rbfValue .thin_plate eps x1 x2 = 0 := by
  simp [rbfValue, h, Real.log_one]

theorem buildMatrix_two (p q : List ℝ) (k : KernelKind) (eps s : ℝ) :
    buildMatrix [p, q] k eps s =
      [[rbfValue k eps p p + s, rbfValue k eps p q],
       [rbfValue k eps q p, rbfValue k eps q q + s]] := by
  unfold buildMatrix
  simp [List.range_succ]

theorem computeWeights_linear :
    computeWeights [[(0 : ℝ)], [1]] [0, 1] .linear 1 0 = .ok [1, 0] := by
  unfold computeWeights
  have hbm : buildMatrix [[(0 : ℝ)], [1]] .linear 1 0 = [[0, 1], [1, 0]] := by
    rw [buildMatrix_two]
    norm_num [show rbfValue .linear 1 [(0 : ℝ)] [(0 : ℝ)] = 0 from euclideanDistance_self [0],
      show rbfValue .linear 1 [(1 : ℝ)] [(1 : ℝ)] = 0 from euclideanDistance_self [1],
      show rbfValue .linear 1 [(0 : ℝ)] [(1 : ℝ)] = 1 from euclideanDistance_zero_one,
      show rbfValue .linear 1 [(1 : ℝ)] [(0 : ℝ)] = 1 from euclideanDistance_one_zero]
  rw [hbm, solveLinearSystem_two_swap 0 1 1 0 0 1 (by norm_num) (by norm_num) (by norm_num)]
  norm_num

theorem fit_linear :
    rbfFit [[(0 : ℝ)], [1]] [0, 1] "linear" 0 (some 1) =
      .ok ⟨[[0], [1]], [0, 1], 0, 1, .linear, [1, 0]⟩ := by
  show (match computeWeights [[(0 : ℝ)], [1]] [0, 1] .linear 1 0 with
    | .error e => (.error e : Except RbfError RbfInterpolator)
    | .ok w => .ok ⟨[[0], [1]], [0, 1], 0, 1, .linear, w⟩) =
    .ok ⟨[[0], [1]], [0, 1], 0, 1, .linear, [1, 0]⟩
  rw [computeWeights_linear]

theorem computeWeights_sing :
    computeWeights [[(0 : ℝ), 0], [0, 0]] [0, 1] .thin_plate 1 0 =
      .error .singularMatrix := by
  unfold computeWeights
  have hbm : buildMatrix [[(0 : ℝ), 0], [0, 0]] .thin_plate 1 0 = [[0, 0], [0, 0]] := by
    rw [buildMatrix_two]
    norm_num [rbf_thin_plate_self]
  rw [hbm, solveLinearSystem_two_sing 0 0 0 0 0 1 (by norm_num) (by norm_num)]

theorem fit_sing :
    rbfFit [[(0 : ℝ), 0], [0, 0]] [0, 1] "thin_plate" 0 (some 1) =
      .error .singularMatrix := by
  show (match computeWeights [[(0 : ℝ), 0], [0, 0]] [0, 1] .thin_plate 1 0 with
    | .error e => (.error e : Except RbfError RbfInterpolator)
    | .ok w => .ok ⟨[[0, 0], [0, 0]], [0, 1], 0, 1, .thin_plate, w⟩) =
    .error .singularMatrix
  rw [computeWeights_sing]

theorem computeWeights_mm :
    computeWeights [[(0 : ℝ), 0], [1]] [0, 1] .thin_plate 1 0 =
      .error .singularMatrix := by
  unfold computeWeights
  have hbm : buildMatrix [[(0 : ℝ), 0], [1]] .thin_plate 1 0 = [[0, 0], [0, 0]] := by
    rw [buildMatrix_two]
    norm_num [rbf_thin_plate_self,
      rbf_thin_plate_dist_one 1 [(0 : ℝ), 0] [1] euclideanDistance_mm1,
      rbf_thin_plate_dist_one 1 [(1 : ℝ)] [0, 0] euclideanDistance_mm2]
  rw [hbm, solveLinearSystem_two_sing 0 0 0 0 0 1 (by norm_num) (by norm_num)]

theorem fit_mm :
    rbfFit [[(0 : ℝ), 0], [1]] [0, 1] "thin_plate" 0 (some 1) =
      .error .singularMatrix := by
  show (match computeWeights [[(0 : ℝ), 0], [1]] [0, 1] .thin_plate 1 0 with
    | .error e => (.error e : Except RbfError RbfInterpolator)
    | .ok w => .ok ⟨[[0, 0], [1]], [0, 1], 0, 1, .thin_plate, w⟩) =
    .error .singularMatrix
  rw [computeWeights_mm]

theorem rbf_inv_self : rbfValue .inverse_multiquadric (1 : ℝ) [(0 : ℝ)] [(0 : ℝ)] = 1 := by
  simp [rbfValue, euclideanDistance_self]

theorem rbf_inv_self3 :
    rbfValue .inverse_multiquadric (1 : ℝ) [Real.sqrt 3] [Real.sqrt 3] = 1 := by
  simp [rbfValue, euclideanDistance_self]

theorem rbf_inv_sqrt3 :
    rbfValue .inverse_multiquadric (1 : ℝ) [(0 : ℝ)] [Real.sqrt 3] = 1 / 2 := by
  simp only [rbfValue, euclideanDistance_sqrt3, one_mul]
  rw [Real.sq_sqrt (by norm_num : (0 : ℝ) ≤ 3),
    show (1 : ℝ) + 3 = 2 ^ 2 by norm_num, Real.sqrt_sq (by norm_num : (0 : ℝ) ≤ 2)]

theorem rbf_inv_sqrt3_rev :
    rbfValue .inverse_multiquadric (1 : ℝ) [Real.sqrt 3] [(0 : ℝ)] = 1 / 2 := by
  simp only [rbfValue, euclideanDistance_sqrt3_rev, one_mul]
  rw [Real.sq_sqrt (by norm_num : (0 : ℝ) ≤ 3),
    show (1 : ℝ) + 3 = 2 ^ 2 by norm_num, Real.sqrt_sq (by norm_num : (0 : ℝ) ≤ 2)]

theorem computeWeights_inverse :
    computeWeights [[(0 : ℝ)], [Real.sqrt 3]] [0, 1] .inverse_multiquadric 1 0 =
      .ok [-(2 / 3), 4 / 3] := by
  unfold computeWeights
  have hbm : buildMatrix [[(0 : ℝ)], [Real.sqrt 3]] .inverse_multiquadric 1 0 =
      [[1, 1 / 2], [1 / 2, 1]] := by
    rw [buildMatrix_two]
    norm_num [rbf_inv_self, rbf_inv_self3, rbf_inv_sqrt3, rbf_inv_sqrt3_rev]
  rw [hbm, solveLinearSystem_two_noswap 1 (1 / 2) (1 / 2) 1 0 1
    (by norm_num [abs_of_nonneg]) (by norm_num [abs_of_nonneg])
    (by norm_num [abs_of_nonneg])]
  norm_num

theorem fit_inverse :
    rbfFit [[(0 : ℝ)], [Real.sqrt 3]] [0, 1] "inverse" 0 (some 1) =
      .ok ⟨[[0], [Real.sqrt 3]], [0, 1], 0, 1, .inverse_multiquadric, [-(2 / 3), 4 / 3]⟩ := by
  show (match computeWeights [[(0 : ℝ)], [Real.sqrt 3]] [0, 1] .inverse_multiquadric 1 0 with
    | .error e => (.error e : Except RbfError RbfInterpolator)
    | .ok w => .ok ⟨[[0], [Real.sqrt 3]], [0, 1], 0, 1, .inverse_multiquadric, w⟩) =
    .ok ⟨[[0], [Real.sqrt 3]], [0, 1], 0, 1, .inverse_multiquadric, [-(2 / 3), 4 / 3]⟩
  rw [computeWeights_inverse]

theorem rbf_tp_exp :
    rbfValue .thin_plate (1 : ℝ) [(0 : ℝ)] [Real.exp 1] = Real.exp 1 * Real.exp 1 := by
  simp only [rbfValue, euclideanDistance_exp]
  rw [if_neg (Real.exp_pos 1).ne', Real.log_exp, mul_one]

theorem rbf_tp_exp_rev :
    rbfValue .thin_plate (1 : ℝ) [Real.exp 1] [(0 : ℝ)] = Real.exp 1 * Real.exp 1 := by
  simp only [rbfValue, euclideanDistance_exp_rev]
  rw [if_neg (Real.exp_pos 1).ne', Real.log_exp, mul_one]

theorem exp_sq_not_small : ¬ |Real.exp 1 * Real.exp 1| < 1e-12 := by
  have h1 : (1 : ℝ) < Real.exp 1 * Real.exp 1 := by
    nlinarith [Real.exp_one_gt_d9]
  rw [abs_of_pos (by positivity), not_lt]
  linarith [show (1e-12 : ℝ) ≤ 1 by norm_num]

theorem computeWeights_tp_exp :
    computeWeights [[(0 : ℝ)], [Real.exp 1]] [0, 1] .thin_plate 1 0 =
      .ok [(Real.exp 1 * Real.exp 1)⁻¹, 0] := by
  unfold computeWeights
  have hbm : buildMatrix [[(0 : ℝ)], [Real.exp 1]] .thin_plate 1 0 =
      [[0, Real.exp 1 * Real.exp 1], [Real.exp 1 * Real.exp 1, 0]] := by
    rw [buildMatrix_two]
    norm_num [rbf_thin_plate_self, rbf_tp_exp, rbf_tp_exp_rev]
  rw [hbm, solveLinearSystem_two_swap 0 (Real.exp 1 * Real.exp 1)
    (Real.exp 1 * Real.exp 1) 0 0 1
    (by rw [abs_zero]; positivity) exp_sq_not_small
    (by simpa [zero_div] using exp_sq_not_small)]
  norm_num [zero_div, one_div]

theorem fit_tp_upper :
    rbfFit [[(0 : ℝ)], [Real.exp 1]] [0, 1] "THIN_PLATE" 0 (some 1) =
      .ok ⟨[[0], [Real.exp 1]], [0, 1], 0, 1, .thin_plate,
        [(Real.exp 1 * Real.exp 1)⁻¹, 0]⟩ := by
  show (match computeWeights [[(0 : ℝ)], [Real.exp 1]] [0, 1] .thin_plate 1 0 with
    | .error e => (.error e : Except RbfError RbfInterpolator)
    | .ok w => .ok ⟨[[0], [Real.exp 1]], [0, 1], 0, 1, .thin_plate, w⟩) =
    .ok ⟨[[0], [Real.exp 1]], [0, 1], 0, 1, .thin_plate,
      [(Real.exp 1 * Real.exp 1)⁻¹, 0]⟩
  rw [computeWeights_tp_exp]

theorem getRbfFunction_upper_thin :
    getRbfFunction "THIN_PLATE" = .ok .thin_plate := rfl

theorem getRbfFunction_inverse :
    getRbfFunction "inverse" = .ok .inverse_multiquadric := rfl

/-- Witness for C2 at the two-point linear-kernel fit. -/
theorem c2_exact_interpolation_witness :
    ∃ v, interpolatePoint ⟨[[0], [1]], [0, 1], 0, 1, .linear, [1, 0]⟩
        ([[(0 : ℝ)], [1]].getD 0 []) = .ok v ∧
      |v - [(0 : ℝ), 1].getD 0 0| ≤ 1e-8 :=
  c2_exact_interpolation [[0], [1]] [0, 1] "linear" (some 1)
    ⟨[[0], [1]], [0, 1], 0, 1, .linear, [1, 0]⟩ fit_linear
    (by norm_num [List.pairwise_cons]) (by norm_num) 0 (by norm_num)

/-! ### Claim C3: the missing dimension-uniformity check -/

/-- C3 (the code lacks the claimed guard): the training points `[[0,0],[1]]` do
not share one dimension, yet the constructor raises `SingularMatrix` (reaching
the solve, whose thin-plate matrix is all zeros here), not `DimensionMismatch`:
no dimension-uniformity check exists in the constructor. -/
theorem c3_no_dimension_check :
    ¬ (∀ p ∈ [[(0 : ℝ), 0], [1]], p.length = ([[(0 : ℝ), 0], [1]].getD 0 []).length) ∧
    rbfFit [[(0 : ℝ), 0], [1]] [0, 1] "thin_plate" 0 (some 1) =
      .error .singularMatrix ∧
    rbfFit [[(0 : ℝ), 0], [1]] [0, 1] "thin_plate" 0 (some 1) ≠
      .error .dimensionMismatch := by
  refine ⟨?_, fit_mm, ?_⟩
  · intro h
    have h2 := h [1] (by simp)
    simp at h2
  · rw [fit_mm]
    simp

/-! ### Claim C9: construction copies, evaluation is pure -/

/-- C9: the fitted model depends only on the contents of the caller's arrays
at construction time (the constructor copies them), so mutating those arrays
afterwards — modelled as evaluating under a different store that agreed on the
referenced arrays at fit time — changes no evaluate output; and `interpolate`
is the pure independent map of `interpolatePoint` over the queries. -/
theorem c9_copy_semantics :
    (∀ (sp sv sp2 sv2 : ℕ → List ℝ) (ptRefs : List ℕ) (vRef : ℕ)
        (func : String) (smooth : ℝ) (eps : Option ℝ),
      (∀ r ∈ ptRefs, sp2 r = sp r) → sv2 vRef = sv vRef →
      fitFromStore sp2 sv2 ptRefs vRef func smooth eps =
        fitFromStore sp sv ptRefs vRef func smooth eps) ∧
    (∀ (m : RbfInterpolator) (qs : List (List ℝ)),
      interpolate m qs = qs.mapM (interpolatePoint m)) := by
  refine ⟨?_, fun m qs => rfl⟩
  intro sp sv sp2 sv2 refs vRef func smooth eps hp hv
  unfold fitFromStore
  rw [hv, List.map_congr_left hp]

/-- Witness for C9: a store mutated at an unrelated array id yields the same
fit. -/
theorem c9_copy_semantics_witness :
    fitFromStore (fun r => if r = 7 then [42] else [0])
        (fun r => if r = 7 then [5] else [1]) [0] 0 "linear" 0 (some 1) =
      fitFromStore (fun _ => [0]) (fun _ => [1]) [0] 0 "linear" 0 (some 1) :=
  c9_copy_semantics.1 (fun _ => [0]) (fun _ => [1]) _ _ [0] 0 "linear" 0 (some 1)
    (by intro r hr; simp at hr; simp [hr]) (by norm_num)

/-! ### Claim C10: lowercasing and the inverse alias -/

/-- C10: kernel-name resolution lowercases the supplied tag before matching
and accepts "inverse" as an alias of the inverse multiquadric; construction
with "THIN_PLATE" or "inverse" succeeds and selects that kernel. -/
theorem c10_kernel_aliases :
    (∀ s : String, getRbfFunction s = kernelOfName (toLowerStr s)) ∧
    getRbfFunction "THIN_PLATE" = .ok .thin_plate ∧
    getRbfFunction "inverse" = .ok .inverse_multiquadric ∧
    (∃ m, rbfFit [[(0 : ℝ)], [Real.exp 1]] [0, 1] "THIN_PLATE" 0 (some 1) = .ok m ∧
      m.kind = .thin_plate) ∧
    (∃ m, rbfFit [[(0 : ℝ)], [Real.sqrt 3]] [0, 1] "inverse" 0 (some 1) = .ok m ∧
      m.kind = .inverse_multiquadric) :=
  ⟨fun _ => rfl, getRbfFunction_upper_thin, getRbfFunction_inverse,
   ⟨_, fit_tp_upper, rfl⟩, ⟨_, fit_inverse, rfl⟩⟩

/-! ### Claim C8: unknown kernel names -/

/-- C8 counterexample: the name "inverse" lies outside the documented
seven-kernel set, yet construction succeeds with it (selecting the inverse
multiquadric), so the claim as stated is false. -/
theorem c8_counterexample :
    ("inverse" ∉ ["thin_plate", "multiquadric", "inverse_multiquadric",
      "gaussian", "linear", "squared", "quintic"]) ∧
    rbfFit [[(0 : ℝ)], [Real.sqrt 3]] [0, 1] "inverse" 0 (some 1) =
      .ok ⟨[[0], [Real.sqrt 3]], [0, 1], 0, 1, .inverse_multiquadric,
        [-(2 / 3), 4 / 3]⟩ :=
  ⟨by decide, fit_inverse⟩

/-- C8 amended: for every kernel name whose lowercased form lies outside the
eight accepted tags (the seven kernels plus the "inverse" alias), resolution
fails with `InvalidKernel`, and so does construction on any well-formed
training set. -/
theorem c8_amended_invalid_kernel (s : String)
    (h : toLowerStr s ∉ ["thin_plate", "multiquadric", "inverse_multiquadric",
      "inverse", "gaussian", "linear", "squared", "quintic"]) :
    getRbfFunction s = .error .invalidKernel ∧
    ∀ (points : List (List ℝ)) (values : List ℝ) (smooth : ℝ) (eps : Option ℝ),
      points.length = values.length → points.length ≠ 0 →
      rbfFit points values s smooth eps = .error .invalidKernel := by
  simp only [List.mem_cons, List.not_mem_nil, or_false, not_or] at h
  obtain ⟨h1, h2, h3, h4, h5, h6, h7, h8⟩ := h
  have hk : getRbfFunction s = .error .invalidKernel := by
    unfold getRbfFunction kernelOfName
    rw [if_neg h1, if_neg h2, if_neg h3, if_neg h4, if_neg h5, if_neg h6,
      if_neg h7, if_neg h8]
  refine ⟨hk, ?_⟩
  intro points values smooth eps hlen hne
  unfold rbfFit
  rw [if_neg (fun hh => hh hlen), if_neg hne]
  simp only [hk]

/-- Witness for the amended C8 at the removed kernel name "cubic". -/
theorem c8_amended_invalid_kernel_witness :
    getRbfFunction "cubic" = .error .invalidKernel ∧
    rbfFit [[(0 : ℝ)]] [0] "cubic" 0 (some 1) = .error .invalidKernel :=
  ⟨(c8_amended_invalid_kernel "cubic" (by decide)).1,
   (c8_amended_invalid_kernel "cubic" (by decide)).2 [[0]] [0] 0 (some 1) rfl
     (by norm_num)⟩

/-! ### Claim C4: assembly of the linear system -/

/-- C4: the fit-time matrix has `A[i][j] = φ(‖pᵢ − pⱼ‖)` off the diagonal and
`A[i][i] = φ(0) + λ` on it, the right-hand side is the training-values vector,
and λ enters the model nowhere else: fits differing only in λ agree on all
stored state except the weights, which are determined by solving this system. -/
theorem c4_matrix_assembly :
    (∀ (nodes : List (List ℝ)) (k : KernelKind) (eps s : ℝ) (i j : ℕ),
      i < nodes.length → j < nodes.length → i ≠ j →
      ((buildMatrix nodes k eps s).getD i []).getD j 0 =
        kernelPhi k eps (euclideanDistance (nodes.getD i []) (nodes.getD j []))) ∧
    (∀ (nodes : List (List ℝ)) (k : KernelKind) (eps s : ℝ) (i : ℕ),
      i < nodes.length →
      ((buildMatrix nodes k eps s).getD i []).getD i 0 = kernelPhi k eps 0 + s) ∧
    (∀ (nodes : List (List ℝ)) (di : List ℝ) (k : KernelKind) (eps s : ℝ),
      computeWeights nodes di k eps s =
        solveLinearSystem (buildMatrix nodes k eps s) di) ∧
    (∀ (points : List (List ℝ)) (values : List ℝ) (func : String)
        (s1 s2 : ℝ) (eps : Option ℝ) (m1 m2 : RbfInterpolator),
      rbfFit points values func s1 eps = .ok m1 →
      rbfFit points values func s2 eps = .ok m2 →
      m1.nodes = m2.nodes ∧ m1.di = m2.di ∧ m1.epsilon = m2.epsilon ∧
        m1.kind = m2.kind ∧
        computeWeights points values m1.kind m1.epsilon s1 = .ok m1.weights) := by
  refine ⟨?_, ?_, fun _ _ _ _ _ => rfl, ?_⟩
  · intro nodes k eps s i j hi hj hij
    rw [buildMatrix_entry nodes k eps s i j hi hj, if_neg hij, add_zero,
      rbfValue_eq_kernelPhi]
  · intro nodes k eps s i hi
    rw [buildMatrix_entry nodes k eps s i i hi hi, if_pos rfl,
      rbfValue_eq_kernelPhi, euclideanDistance_self]
  · intro points values func s1 s2 eps m1 m2 hf1 hf2
    obtain ⟨hn1, hd1, _, hk1, he1, hw1⟩ := rbfFit_ok_elim _ _ _ _ _ _ hf1
    obtain ⟨hn2, hd2, _, hk2, he2, hw2⟩ := rbfFit_ok_elim _ _ _ _ _ _ hf2
    refine ⟨hn1.trans hn2.symm, hd1.trans hd2.symm, he1.trans he2.symm, ?_, hw1⟩
    rw [hk1] at hk2
    injection hk2

/-- Witness for C4 at the two-point linear model. -/
theorem c4_matrix_assembly_witness :
    (((buildMatrix [[(0 : ℝ)], [1]] .linear 1 0).getD 0 []).getD 1 0 =
      kernelPhi .linear 1 (euclideanDistance ([[(0 : ℝ)], [1]].getD 0 [])
        ([[(0 : ℝ)], [1]].getD 1 []))) ∧
    (((buildMatrix [[(0 : ℝ)], [1]] .linear 1 0).getD 0 []).getD 0 0 =
      kernelPhi .linear 1 0 + 0) ∧
    (computeWeights [[(0 : ℝ)], [1]] [0, 1]
        (⟨[[0], [1]], [0, 1], 0, 1, .linear, [1, 0]⟩ : RbfInterpolator).kind
        (⟨[[0], [1]], [0, 1], 0, 1, .linear, [1, 0]⟩ : RbfInterpolator).epsilon 0 =
      .ok (⟨[[0], [1]], [0, 1], 0, 1, .linear, [1, 0]⟩ : RbfInterpolator).weights) :=
  ⟨c4_matrix_assembly.1 [[0], [1]] .linear 1 0 0 1 (by norm_num) (by norm_num)
      (by norm_num),
   c4_matrix_assembly.2.1 [[0], [1]] .linear 1 0 0 (by norm_num),
   (c4_matrix_assembly.2.2.2 [[0], [1]] [0, 1] "linear" 0 0 (some 1) _ _
      fit_linear fit_linear).2.2.2.2⟩

/-! ### Claim C5: the singularity condition of the solver -/

theorem forwardStep_error_iff (n : ℕ) (M : Mat) (col : ℕ) (e : RbfError) :
    forwardStep n M col = .error e ↔
      (e = .singularMatrix ∧ |M (pivotRow M n col) col| < 1e-12) := by
  unfold forwardStep
  show (if |swapRows M col (pivotRow M n col) col col| < 1e-12
      then (.error .singularMatrix : Except RbfError Mat)
      else .ok (eliminateCol (swapRows M col (pivotRow M n col)) n col)) =
        .error e ↔ _
  rw [show swapRows M col (pivotRow M n col) col col = M (pivotRow M n col) col
    by simp [swapRows]]
  by_cases hc : |M (pivotRow M n col) col| < 1e-12
  · rw [if_pos hc]
    constructor
    · intro hh
      injection hh with hh
      exact ⟨hh.symm, hc⟩
    · rintro ⟨rfl, -⟩
      rfl
  · rw [if_neg hc]
    constructor
    · intro hh
      cases hh
    · rintro ⟨-, hcc⟩
      exact absurd hcc hc

theorem feAux_error_iff (n : ℕ) :
    ∀ (k c : ℕ) (M0 : Mat) (e : RbfError),
      feAux n M0 (List.range' c k) = .error e ↔
        (e = .singularMatrix ∧ ∃ t, t < k ∧ ∃ M,
          feAux n M0 (List.range' c t) = .ok M ∧
          |M (pivotRow M n (c + t)) (c + t)| < 1e-12)
  | 0, c, M0, e => by
    constructor
    · intro h
      simp [List.range', feAux] at h
    · rintro ⟨-, t, ht, -⟩
      omega
  | k + 1, c, M0, e => by
    rw [show List.range' c (k + 1) = c :: List.range' (c + 1) k from rfl]
    cases hstep : forwardStep n M0 c with
    | error e2 =>
      have hl : feAux n M0 (c :: List.range' (c + 1) k) = .error e2 := by
        simp only [feAux, hstep]
      rw [hl]
      have he2 := (forwardStep_error_iff n M0 c e2).mp hstep
      constructor
      · intro hh
        injection hh with hh
        subst hh
        exact ⟨he2.1, 0, by omega, M0, rfl, by simpa using he2.2⟩
      · rintro ⟨rfl, -⟩
        rw [he2.1]
    | ok M1 =>
      have hl : feAux n M0 (c :: List.range' (c + 1) k) =
          feAux n M1 (List.range' (c + 1) k) := by
        simp only [feAux, hstep]
      rw [hl, feAux_error_iff n k (c + 1) M1 e]
      constructor
      · rintro ⟨he, t, ht, M, hM, hpv⟩
        refine ⟨he, t + 1, by omega, M, ?_, ?_⟩
        · rw [show List.range' c (t + 1) = c :: List.range' (c + 1) t from rfl]
          simp only [feAux, hstep]
          exact hM
        · rw [show c + (t + 1) = c + 1 + t by omega]
          exact hpv
      · rintro ⟨he, t, ht, M, hM, hpv⟩
        cases t with
        | zero =>
          have hM0 : M0 = M := by
            simp [List.range', feAux] at hM
            exact hM
          subst hM0
          have hcontra := (forwardStep_error_iff n M0 c .singularMatrix).mpr
            ⟨rfl, by simpa using hpv⟩
          rw [hstep] at hcontra
          cases hcontra
        | succ t2 =>
          refine ⟨he, t2, by omega, M, ?_, ?_⟩
          · have hM2 := hM
            rw [show List.range' c (t2 + 1) = c :: List.range' (c + 1) t2 from rfl]
              at hM2
            simp only [feAux, hstep] at hM2
            exact hM2
          · rw [show c + 1 + t2 = c + (t2 + 1) by omega]
            exact hpv

theorem solveLinearSystem_error_iff (A : List (List ℝ)) (b : List ℝ)
    (e : RbfError) :
    solveLinearSystem A b = .error e ↔
      (e = .singularMatrix ∧ ∃ c, c < A.length ∧ ∃ M,
        feAux A.length (fun i j => (A.getD i [] ++ [b.getD i 0]).getD j 0)
          (List.range c) = .ok M ∧
        |M (pivotRow M A.length c) c| < 1e-12) := by
  rw [solveLinearSystem_eq]
  set n := A.length with hn
  set aug : Mat := fun i j => (A.getD i [] ++ [b.getD i 0]).getD j 0 with haug
  have hfe : (match feAux n aug (List.range n) with
      | .error e2 => (.error e2 : Except RbfError (List ℝ))
      | .ok U => .ok (backSubAux n U n)) = .error e ↔
      feAux n aug (List.range n) = .error e := by
    cases h : feAux n aug (List.range n) with
    | error e2 => simp
    | ok U => simp
  rw [hfe, List.range_eq_range', feAux_error_iff n n 0 aug e]
  simp only [Nat.zero_add, ← List.range_eq_range']

/-- C5: the dense solve fails with `SingularMatrix` exactly when, after the
partial-pivot selection at some elimination column (reached after the earlier
columns were eliminated successfully), the selected pivot's magnitude is below
1e-12; and fitting two coincident training points with different values and
smoothing 0 fails with `SingularMatrix`. -/
theorem c5_singular_iff :
    (∀ (A : List (List ℝ)) (b : List ℝ) (e : RbfError),
      solveLinearSystem A b = .error e ↔
        (e = .singularMatrix ∧ ∃ c, c < A.length ∧ ∃ M,
          feAux A.length (fun i j => (A.getD i [] ++ [b.getD i 0]).getD j 0)
            (List.range c) = .ok M ∧
          |M (pivotRow M A.length c) c| < 1e-12)) ∧
    rbfFit [[(0 : ℝ), 0], [0, 0]] [0, 1] "thin_plate" 0 (some 1) =
      .error .singularMatrix :=
  ⟨solveLinearSystem_error_iff, fit_sing⟩

/-! ### Claim C6: the default shape parameter -/

theorem foldl_pair_add {F : ℝ × ℕ → ℕ → ℝ × ℕ} (g : ℕ → ℝ) (h : ℕ → ℕ)
    (hF : ∀ a i, F a i = (a.1 + g i, a.2 + h i)) :
    ∀ (l : List ℕ) (a : ℝ × ℕ),
      l.foldl F a = (a.1 + (l.map g).sum, a.2 + (l.map h).sum)
  | [], a => by simp
  | x :: l, a => by
    rw [List.foldl_cons, hF, foldl_pair_add g h hF l]
    simp [add_assoc]

theorem sum_map_one (l : List ℕ) : (l.map fun _ => (1 : ℕ)).sum = l.length := by
  induction l with
  | nil => rfl
  | cons x l ih =>
    rw [List.map_cons, List.sum_cons, ih, List.length_cons]
    omega

theorem sum_map_range2 (f : ℕ → ℝ) :
    ∀ (k s : ℕ), ((List.range' s k).map f).sum = ∑ t in Finset.range k, f (s + t)
  | 0, s => by simp
  | k + 1, s => by
    rw [show List.range' s (k + 1) = s :: List.range' (s + 1) k from rfl,
      List.map_cons, List.sum_cons, sum_map_range2 f k (s + 1),
      Finset.sum_range_succ']
    have h1 : ∀ t, f (s + 1 + t) = f (s + (t + 1)) := fun t => by
      congr 1
      omega
    simp only [h1, Nat.add_zero]
    ring

theorem sum_sub_choose (ss : ℕ) :
    (∑ i in Finset.range ss, (ss - (i + 1))) = ss.choose 2 := by
  have h1 : ∀ i ∈ Finset.range ss, ss - (i + 1) = ss - 1 - i := fun i _ => by omega
  rw [Finset.sum_congr rfl h1, Finset.sum_range_reflect (fun i => i) ss,
    Nat.choose_two_right]
  have h2 := Finset.sum_range_id_mul_two ss
  omega

theorem computeEpsilon_eq (points : List (List ℝ)) (h2 : 2 ≤ points.length) :
    computeEpsilon points =
      (∑ i in Finset.range (min points.length 100),
        ∑ j in Finset.Ico (i + 1) (min points.length 100),
          euclideanDistance (points.getD i []) (points.getD j [])) /
        ((min points.length 100).choose 2 : ℕ) := by
  unfold computeEpsilon
  rw [if_neg (by omega)]
  set ss := min points.length 100 with hss
  have hF : ∀ (a : ℝ × ℕ) (i : ℕ),
      (List.range' (i + 1) (ss - (i + 1))).foldl
        (fun acc2 j =>
          (acc2.1 + euclideanDistance (points.getD i []) (points.getD j []),
           acc2.2 + 1)) a =
      (a.1 + ((List.range' (i + 1) (ss - (i + 1))).map
          (fun j => euclideanDistance (points.getD i []) (points.getD j []))).sum,
       a.2 + (ss - (i + 1))) := by
    intro a i
    rw [foldl_pair_add
      (fun j => euclideanDistance (points.getD i []) (points.getD j []))
      (fun _ => 1) (fun a j => rfl), sum_map_one, List.length_range']
  have hfold := foldl_pair_add _ _ hF (List.range ss) (0, 0)
  have hcount : ((List.range ss).map (fun i => ss - (i + 1))).sum = ss.choose 2 := by
    rw [sum_map_range, sum_sub_choose]
  have hchoose : 0 < ss.choose 2 := Nat.choose_pos (by omega)
  have hsum : ((List.range ss).map (fun i =>
      ((List.range' (i + 1) (ss - (i + 1))).map
        (fun j => euclideanDistance (points.getD i []) (points.getD j []))).sum)).sum =
      ∑ i in Finset.range ss, ∑ j in Finset.Ico (i + 1) ss,
        euclideanDistance (points.getD i []) (points.getD j []) := by
    rw [sum_map_range]
    refine Finset.sum_congr rfl fun i hi => ?_
    rw [sum_map_range2, Finset.sum_Ico_eq_sum_range]
  simp only [hfold, zero_add]
  rw [hcount, if_pos hchoose, hsum]

theorem computeEpsilon_two : computeEpsilon [[(0 : ℝ)], [1]] = 1 := by
  rw [computeEpsilon_eq [[(0 : ℝ)], [1]] (by norm_num)]
  have hmin : min ([[(0 : ℝ)], [1]]).length 100 = 2 := by norm_num
  rw [hmin]
  rw [show (2 : ℕ).choose 2 = 1 from rfl]
  rw [Finset.sum_range_succ, Finset.sum_range_succ, Finset.sum_range_zero]
  rw [show Finset.Ico (0 + 1) 2 = {1} from rfl, show Finset.Ico (1 + 1) 2 = ∅ from rfl]
  simp [euclideanDistance_zero_one]

theorem fit_linear_none :
    rbfFit [[(0 : ℝ)], [1]] [0, 1] "linear" 0 none =
      .ok ⟨[[0], [1]], [0, 1], 0, 1, .linear, [1, 0]⟩ := by
  show (match computeWeights [[(0 : ℝ)], [1]] [0, 1] .linear
      (computeEpsilon [[(0 : ℝ)], [1]]) 0 with
    | .error e => (.error e : Except RbfError RbfInterpolator)
    | .ok w => .ok ⟨[[0], [1]], [0, 1], 0, computeEpsilon [[(0 : ℝ)], [1]],
        .linear, w⟩) =
    .ok ⟨[[0], [1]], [0, 1], 0, 1, .linear, [1, 0]⟩
  rw [computeEpsilon_two, computeWeights_linear]

/-- C6: with no caller-supplied shape parameter, the resolved ε is the mean
pairwise Euclidean distance over all unordered pairs among the fixed prefix of
the first `min(N,100)` training points, is 1.0 when fewer than 2 points are
available, and is stored on the model (a supplied ε is stored verbatim). -/
theorem c6_epsilon_default :
    (∀ points : List (List ℝ), points.length < 2 → computeEpsilon points = 1) ∧
    (∀ points : List (List ℝ), 2 ≤ points.length →
      computeEpsilon points =
        (∑ i in Finset.range (min points.length 100),
          ∑ j in Finset.Ico (i + 1) (min points.length 100),
            euclideanDistance (points.getD i []) (points.getD j [])) /
          ((min points.length 100).choose 2 : ℕ)) ∧
    (∀ (points : List (List ℝ)) (values : List ℝ) (func : String) (smooth : ℝ)
        (m : RbfInterpolator),
      rbfFit points values func smooth none = .ok m →
        m.epsilon = computeEpsilon points) ∧
    (∀ (points : List (List ℝ)) (values : List ℝ) (func : String) (smooth : ℝ)
        (eps0 : ℝ) (m : RbfInterpolator),
      rbfFit points values func smooth (some eps0) = .ok m → m.epsilon = eps0) := by
  refine ⟨?_, computeEpsilon_eq, ?_, ?_⟩
  · intro points h
    unfold computeEpsilon
    rw [if_pos h]
  · intro points values func smooth m hfit
    exact (rbfFit_ok_elim _ _ _ _ _ _ hfit).2.2.2.2.1
  · intro points values func smooth eps0 m hfit
    exact (rbfFit_ok_elim _ _ _ _ _ _ hfit).2.2.2.2.1

/-- Witness for C6: the empty set, the two-point prefix formula, and both
epsilon-resolution modes at concrete fits. -/
theorem c6_epsilon_default_witness :
    computeEpsilon ([] : List (List ℝ)) = 1 ∧
    computeEpsilon [[(0 : ℝ)], [1]] =
      (∑ i in Finset.range (min ([[(0 : ℝ)], [1]]).length 100),
        ∑ j in Finset.Ico (i + 1) (min ([[(0 : ℝ)], [1]]).length 100),
          euclideanDistance ([[(0 : ℝ)], [1]].getD i [])
            ([[(0 : ℝ)], [1]].getD j [])) /
        ((min ([[(0 : ℝ)], [1]]).length 100).choose 2 : ℕ) ∧
    (⟨[[0], [1]], [0, 1], 0, 1, .linear, [1, 0]⟩ : RbfInterpolator).epsilon =
      computeEpsilon [[(0 : ℝ)], [1]] ∧
    (⟨[[0], [1]], [0, 1], 0, 1, .linear, [1, 0]⟩ : RbfInterpolator).epsilon = 1 :=
  ⟨c6_epsilon_default.1 [] (by norm_num),
   c6_epsilon_default.2.1 [[(0 : ℝ)], [1]] (by norm_num),
   c6_epsilon_default.2.2.1 [[(0 : ℝ)], [1]] [0, 1] "linear" 0 _ fit_linear_none,
   c6_epsilon_default.2.2.2 [[(0 : ℝ)], [1]] [0, 1] "linear" 0 1 _ fit_linear⟩

end Rbf
